import Mathlib

/-!
Verification of the azcopy chunked transfer execution engine
(`ste.localToBlockBlob`: `runPrologue`, `generateUploadFunc`, `putBlob`)
and of the list-command validation (`cmd.HandleListCommand`).

The Go code is shallowly embedded: the per-transfer mutable fields touched by
chunk workers (cancellation flag, transfer status, completed-chunk counter,
block-identifier slice, throughput counter, done/unmap/close counters) become a
`TransferState` record, and each Go function becomes an explicit state
transformer.  Nondeterministic externals (StageBlock / CommitBlockList / Upload
outcomes, external cancellation arriving while an I/O call is in flight, the
freshly generated block identifier) are inputs to the transformers.
-/

namespace AzCopy

/-- Transfer status codes (`common.TransferStatus`). -/
inductive TransferStatus where
  | notStarted
  | inProgress
  | complete
  | failed
  | cancelled
deriving DecidableEq

/-- The per-transfer mutable state touched by `localToBlockBlob` workers.
`cancelled` models `TransferContext.Err() != nil`; `chunksCompleted` is the
atomic counter behind `ChunksDone()`; `blockIds` is the block-identifier
slice (`none` = slot not yet written); `throughput` is
`jobInfo.JobThroughPut`; the remaining fields count the externally visible
effects `TransferDone()`, `memoryMappedFile.Unmap()`, `srcFileHandler.Close()`,
`CommitBlockList` and `Upload` (put-blob) calls. -/
structure TransferState where
  cancelled : Bool
  status : TransferStatus
  chunksCompleted : Nat
  blockIds : List (Option String)
  throughput : Nat
  transfersDone : Nat
  unmapCount : Nat
  closeCount : Nat
  commitCount : Nat
  putBlobCount : Nat
deriving DecidableEq

attribute [ext] TransferState

/-- The `transferDone` closure of `generateUploadFunc` (lines 117-127):
mark the transfer done, unmap the memory-mapped view, close the source file. -/
def transferDone (st : TransferState) : TransferState :=
  { st with
      transfersDone := st.transfersDone + 1
      unmapCount := st.unmapCount + 1
      closeCount := st.closeCount + 1 }

/-- One scheduled chunk job together with the nondeterministic outcomes of its
execution: `chunkId`, `size` (adjustedChunkSize) and `start` (startIndex) come
from the prologue; `blockId` is the freshly generated encoded block identifier;
`stageOk` is the outcome of the `StageBlock` call; `cancelDuring` records
whether an external cancellation of the transfer context arrived while the
chunk was being staged; `commitOk` is the outcome of `CommitBlockList` (used
only when this execution runs the epilogue). -/
structure ChunkExec where
  chunkId : Nat
  size : Nat
  start : Nat
  blockId : String
  stageOk : Bool
  cancelDuring : Bool
  commitOk : Bool
deriving DecidableEq

/-- Observable report of one chunk execution: whether staging I/O was
attempted, the value returned by this execution's `ChunksDone()` increment,
whether this execution ran the finalize step (`transferDone`), and the block
list passed to `CommitBlockList` when this execution committed one. -/
structure ChunkReport where
  staged : Bool
  counterAfter : Nat
  finalized : Bool
  committedList : Option (List (Option String))
deriving DecidableEq

/-- The body of the chunk function returned by `generateUploadFunc`
(part_000 lines 114-214), as a state transformer.  Branch by branch:
cancelled-at-entry short circuit (lines 128-134); block-id generation and
slot write (lines 137-141); StageBlock with its failure handling
(lines 146-170); throughput update (line 176); last-chunk check and
epilogue with the cancelled / commit-failed / commit-succeeded outcomes
(lines 179-211). -/
def uploadChunk (numChunks : Nat) (e : ChunkExec) (st : TransferState) :
    TransferState × ChunkReport :=
  if st.cancelled then
    let st1 := { st with chunksCompleted := st.chunksCompleted + 1 }
    if st1.chunksCompleted = numChunks then
      (transferDone st1, ⟨false, st1.chunksCompleted, true, none⟩)
    else
      (st1, ⟨false, st1.chunksCompleted, false, none⟩)
  else
    let st1 := { st with
        blockIds := st.blockIds.set e.chunkId (some e.blockId)
        cancelled := st.cancelled || e.cancelDuring }
    if e.stageOk then
      let st2 := { st1 with
          throughput := st1.throughput + e.size
          chunksCompleted := st1.chunksCompleted + 1 }
      if st2.chunksCompleted = numChunks then
        if st2.cancelled then
          (transferDone st2, ⟨true, st2.chunksCompleted, true, none⟩)
        else if e.commitOk then
          (transferDone { st2 with
              status := TransferStatus.complete
              commitCount := st2.commitCount + 1 },
           ⟨true, st2.chunksCompleted, true, some st2.blockIds⟩)
        else
          (transferDone { st2 with
              status := TransferStatus.failed
              commitCount := st2.commitCount + 1 },
           ⟨true, st2.chunksCompleted, true, some st2.blockIds⟩)
      else
        (st2, ⟨true, st2.chunksCompleted, false, none⟩)
    else
      let st2 :=
        if st1.cancelled then st1
        else { st1 with cancelled := true, status := TransferStatus.failed }
      let st3 := { st2 with chunksCompleted := st2.chunksCompleted + 1 }
      if st3.chunksCompleted = numChunks then
        (transferDone st3, ⟨true, st3.chunksCompleted, true, none⟩)
      else
        (st3, ⟨true, st3.chunksCompleted, false, none⟩)

/-- Run a list of chunk executions in the given completion order, threading
the shared transfer state and collecting per-execution reports. -/
def runChunks (numChunks : Nat) (es : List ChunkExec) (st : TransferState) :
    TransferState × List ChunkReport :=
  match es with
  | [] => (st, [])
  | e :: rest =>
    let p := uploadChunk numChunks e st
    let q := runChunks numChunks rest p.1
    (q.1, p.2 :: q.2)

/-- One chunk message scheduled by the prologue: the arguments
`(blockIdCount, adjustedChunkSize, startIndex)` of the `generateUploadFunc`
call at part_000 lines 103-108. -/
structure ChunkJob where
  chunkId : Nat
  adjustedChunkSize : Nat
  startIndex : Nat
deriving DecidableEq

/-- The chunk-scheduling loop of `runPrologue` (part_000 lines 94-110):
starting at `startIndex` with chunk-index counter `blockIdCount`, one chunk
job is emitted per iteration; the adjusted size is `blobSize - startIndex`
when the nominal chunk would overrun the blob.  The Go loop would not
terminate for `chunkSize = 0` (that case is unreachable on the chunked path
with a positive block size); the embedding returns `[]` there. -/
def scheduleChunksFrom (blobSize chunkSize startIndex blockIdCount : Nat) :
    List ChunkJob :=
  if h : startIndex < blobSize ∧ 0 < chunkSize then
    { chunkId := blockIdCount
      adjustedChunkSize :=
        if blobSize < startIndex + chunkSize then blobSize - startIndex
        else chunkSize
      startIndex := startIndex } ::
      scheduleChunksFrom blobSize chunkSize (startIndex + chunkSize)
        (blockIdCount + 1)
  else []
termination_by blobSize - startIndex
decreasing_by omega

/-- All chunk jobs scheduled by the prologue for one transfer, in emission
order. -/
def chunkJobs (blobSize chunkSize : Nat) : List ChunkJob :=
  scheduleChunksFrom blobSize chunkSize 0 0

/-- Ceiling division: the number of chunks of size `b` needed to cover `a`
bytes. -/
def ceilDiv (a b : Nat) : Nat := (a + b - 1) / b

/-- Modelled from the spec: the `NumChunks` field of `TransferMsg` is computed
by the job-part planner, which is not among the provided sources; the spec
fixes it as ceil(sourceSize / chunkSize). -/
def numChunksOf (sourceSize chunkSize : Nat) : Nat := ceilDiv sourceSize chunkSize

/-- `Tiles lo hi ranges` states that the `(startIndex, length)` pairs in
`ranges` tile the byte interval from `lo` (inclusive) to `hi` (exclusive)
contiguously, in order, with no gaps and no overlaps, each range nonempty. -/
inductive Tiles : Nat → Nat → List (Nat × Nat) → Prop where
  | nil (hi : Nat) : Tiles hi hi []
  | cons (lo hi len : Nat) (rest : List (Nat × Nat)) (hpos : 0 < len)
      (hle : lo + len ≤ hi) (htail : Tiles (lo + len) hi rest) :
      Tiles lo hi ((lo, len) :: rest)

/-- The `putBlob` function (part_000 lines 216-268) as a state transformer;
`putOk` is the outcome of the whole-object `Upload` call.  Failure under a
cancelled transfer context only logs; other failures mark the transfer
failed; success marks it complete.  In all cases the transfer is marked
done, and for a nonzero source size the throughput is bumped by the source
size and the mapped view and source handle are released. -/
def putBlob (sourceSize : Nat) (putOk : Bool) (st : TransferState) :
    TransferState :=
  let st1 := { st with putBlobCount := st.putBlobCount + 1 }
  let st2 :=
    if putOk = false then
      if st1.cancelled then st1
      else { st1 with status := TransferStatus.failed }
    else { st1 with status := TransferStatus.complete }
  let st3 := { st2 with transfersDone := st2.transfersDone + 1 }
  if sourceSize ≠ 0 then
    { st3 with
        throughput := st3.throughput + sourceSize
        unmapCount := st3.unmapCount + 1
        closeCount := st3.closeCount + 1 }
  else st3

/-- Result of the prologue: whether a memory-mapped view of the source was
acquired, how many block-identifier slots were allocated (`none` on the
put-blob path), the scheduled chunk jobs, whether the whole-object path ran,
and the transfer state afterwards. -/
structure PrologueResult where
  mapped : Bool
  blockIdSlots : Option Nat
  chunkMsgs : List ChunkJob
  didPutBlob : Bool
  st : TransferState
deriving DecidableEq

/-- `runPrologue` (part_000 lines 50-111): map the source when its size is
positive; for `blobSize = 0` or `blobSize ≤ chunkSize` perform a single
`putBlob` and return; otherwise allocate `NumChunks` block-identifier slots
and schedule the chunk jobs. -/
def runPrologue (sourceSize chunkSize numChunks : Nat) (putOk : Bool)
    (st : TransferState) : PrologueResult :=
  if sourceSize = 0 ∨ sourceSize ≤ chunkSize then
    { mapped := decide (0 < sourceSize)
      blockIdSlots := none
      chunkMsgs := []
      didPutBlob := true
      st := putBlob sourceSize putOk st }
  else
    { mapped := decide (0 < sourceSize)
      blockIdSlots := some numChunks
      chunkMsgs := chunkJobs sourceSize chunkSize
      didPutBlob := false
      st := { st with blockIds := List.replicate numChunks none } }

/-- The zero value of `common.JobID`. -/
def EmptyJobId : String := ""

/-- Modelled from the spec: `common.ParseJobID` (not among the provided
sources) parses a UUID-like job identifier, here 8-4-4-4-12 hexadecimal
groups, and fails on anything else. -/
def ParseJobID (s : String) : Option String :=
  if s.length = 36 ∧
      ((List.range 36).all (fun i =>
        let c := s.toList.getD i ' '
        if i = 8 ∨ i = 13 ∨ i = 18 ∨ i = 23 then c == '-'
        else c.isDigit || (('a' ≤ c && c ≤ 'f') || ('A' ≤ c && c ≤ 'F')))) = true then
    some s
  else none

/-- The fields of `common.ListRequest` consulted by the list command. -/
structure ListRequest where
  JobId : String
  OfStatus : String
deriving DecidableEq

/-- Modelled from the spec: `common.TransferStatusStringToCode` (not among
the provided sources) maps a recognized status name to its code and any
unrecognized string to the sentinel `math.MaxUint32`. -/
def TransferStatusStringToCode (s : String) : Nat :=
  if s = "NotStarted" then 0
  else if s = "InProgress" then 1
  else if s = "Complete" then 2
  else if s = "Failed" then 3
  else if s = "Cancelled" then 4
  else 4294967295

/-- The dispatch targets reachable from `HandleListCommand`. -/
inductive RpcCall where
  | listJobs
  | listJobProgressSummary
  | listJobTransfers
deriving DecidableEq

/-- `HandleListCommand` (cmd/list.go lines 94-121), reduced to which RPC
dispatch, if any, it performs: an invalid non-empty `with-status` filter
returns before any `common.Rpc` call; otherwise the job id and status filter
select the dispatched command. -/
def HandleListCommand (input : ListRequest) : Option RpcCall :=
  if input.OfStatus ≠ "" ∧
      TransferStatusStringToCode input.OfStatus = 4294967295 then
    none
  else if input.JobId = EmptyJobId then some RpcCall.listJobs
  else if input.OfStatus = "" then some RpcCall.listJobProgressSummary
  else some RpcCall.listJobTransfers

/-- The `Args` validator of `lsCmd` (cmd/list.go lines 59-78): a first
argument that parses as a job id is stored into the request; an unparseable
one only prints "invalid job Id given" and returns nil, so the command still
runs with the request unchanged. -/
def lsCmdArgs (args : List String) (input : ListRequest) : ListRequest :=
  match args with
  | [] => input
  | a :: _ =>
    match ParseJobID a with
    | none => input
    | some jobId => { input with JobId := jobId }

/-- The list-command pipeline: the `with-status` flag fills `OfStatus`, the
`Args` validator fills `JobId` from the first positional argument, then
`HandleListCommand` dispatches. -/
def runListCommand (args : List String) (withStatus : String) : Option RpcCall :=
  HandleListCommand (lsCmdArgs args { JobId := EmptyJobId, OfStatus := withStatus })

/-- A fresh in-progress transfer state with `n` allocated block-id slots, as
left by the chunked branch of the prologue. -/
def initState (n : Nat) : TransferState :=
  { cancelled := false
    status := TransferStatus.inProgress
    chunksCompleted := 0
    blockIds := List.replicate n none
    throughput := 0
    transfersDone := 0
    unmapCount := 0
    closeCount := 0
    commitCount := 0
    putBlobCount := 0 }

/-- Sample chunk execution: chunk 0, 5 bytes at offset 0, staging succeeds. -/
def chunkOkA : ChunkExec := ⟨0, 5, 0, "b0", true, false, true⟩

/-- Sample chunk execution: chunk 1, 7 bytes at offset 5, staging succeeds. -/
def chunkOkB : ChunkExec := ⟨1, 7, 5, "b1", true, false, true⟩

/-- Sample chunk execution whose staging I/O fails. -/
def chunkFail : ChunkExec := ⟨0, 5, 0, "b0", false, false, true⟩

/-- Sample transfer state whose cancellation signal is set. -/
def stCancelled : TransferState := { initState 1 with cancelled := true }

theorem uploadChunk_chunksCompleted (numChunks : Nat) (e : ChunkExec)
    (st : TransferState) :
    ((uploadChunk numChunks e st).1).chunksCompleted = st.chunksCompleted + 1 := by
  simp only [uploadChunk, transferDone]
  split_ifs <;> rfl

theorem uploadChunk_counterAfter (numChunks : Nat) (e : ChunkExec)
    (st : TransferState) :
    ((uploadChunk numChunks e st).2).counterAfter = st.chunksCompleted + 1 := by
  simp only [uploadChunk, transferDone]
  split_ifs <;> rfl

theorem uploadChunk_finalized (numChunks : Nat) (e : ChunkExec)
    (st : TransferState) :
    (((uploadChunk numChunks e st).2).finalized = true ↔
      st.chunksCompleted + 1 = numChunks) := by
  simp only [uploadChunk, transferDone]
  split_ifs <;> simp_all

theorem uploadChunk_blockIds (numChunks : Nat) (e : ChunkExec)
    (st : TransferState) :
    ((uploadChunk numChunks e st).1).blockIds =
      if st.cancelled = true then st.blockIds
      else st.blockIds.set e.chunkId (some e.blockId) := by
  simp only [uploadChunk, transferDone]
  split_ifs <;> simp_all

theorem uploadChunk_cancelled (numChunks : Nat) (e : ChunkExec)
    (st : TransferState) :
    ((uploadChunk numChunks e st).1).cancelled =
      (st.cancelled || e.cancelDuring || !e.stageOk) := by
  simp only [uploadChunk, transferDone]
  split_ifs <;> simp_all

theorem uploadChunk_throughput (numChunks : Nat) (e : ChunkExec)
    (st : TransferState) :
    ((uploadChunk numChunks e st).1).throughput =
      st.throughput +
        (if st.cancelled = false ∧ e.stageOk = true then e.size else 0) := by
  simp only [uploadChunk, transferDone]
  split_ifs <;> simp_all

theorem uploadChunk_status (numChunks : Nat) (e : ChunkExec)
    (st : TransferState) :
    ((uploadChunk numChunks e st).1).status =
      if st.cancelled = true then st.status
      else if e.stageOk = true then
        if st.chunksCompleted + 1 = numChunks then
          if e.cancelDuring = true then st.status
          else if e.commitOk = true then TransferStatus.complete
          else TransferStatus.failed
        else st.status
      else
        if e.cancelDuring = true then st.status
        else TransferStatus.failed := by
  simp only [uploadChunk, transferDone]
  split_ifs <;> simp_all

theorem uploadChunk_staged (numChunks : Nat) (e : ChunkExec)
    (st : TransferState) :
    ((uploadChunk numChunks e st).2).staged = !st.cancelled := by
  simp only [uploadChunk, transferDone]
  split_ifs <;> simp_all

theorem uploadChunk_committedList (numChunks : Nat) (e : ChunkExec)
    (st : TransferState) :
    ((uploadChunk numChunks e st).2).committedList =
      if st.cancelled = false ∧ e.stageOk = true ∧
          st.chunksCompleted + 1 = numChunks ∧ e.cancelDuring = false then
        some (st.blockIds.set e.chunkId (some e.blockId))
      else none := by
  simp only [uploadChunk, transferDone]
  split_ifs <;> simp_all

theorem uploadChunk_commitCount (numChunks : Nat) (e : ChunkExec)
    (st : TransferState) :
    ((uploadChunk numChunks e st).1).commitCount =
      st.commitCount +
        (if st.cancelled = false ∧ e.stageOk = true ∧
            st.chunksCompleted + 1 = numChunks ∧ e.cancelDuring = false then 1
         else 0) := by
  simp only [uploadChunk, transferDone]
  split_ifs <;> simp_all

theorem uploadChunk_transfersDone (numChunks : Nat) (e : ChunkExec)
    (st : TransferState) :
    ((uploadChunk numChunks e st).1).transfersDone =
      st.transfersDone + (if st.chunksCompleted + 1 = numChunks then 1 else 0) := by
  simp only [uploadChunk, transferDone]
  split_ifs <;> simp_all

theorem uploadChunk_unmapCount (numChunks : Nat) (e : ChunkExec)
    (st : TransferState) :
    ((uploadChunk numChunks e st).1).unmapCount =
      st.unmapCount + (if st.chunksCompleted + 1 = numChunks then 1 else 0) := by
  simp only [uploadChunk, transferDone]
  split_ifs <;> simp_all

theorem uploadChunk_closeCount (numChunks : Nat) (e : ChunkExec)
    (st : TransferState) :
    ((uploadChunk numChunks e st).1).closeCount =
      st.closeCount + (if st.chunksCompleted + 1 = numChunks then 1 else 0) := by
  simp only [uploadChunk, transferDone]
  split_ifs <;> simp_all

theorem uploadChunk_putBlobCount (numChunks : Nat) (e : ChunkExec)
    (st : TransferState) :
    ((uploadChunk numChunks e st).1).putBlobCount = st.putBlobCount := by
  simp only [uploadChunk, transferDone]
  split_ifs <;> simp_all

theorem runChunks_length (numChunks : Nat) (es : List ChunkExec)
    (st : TransferState) :
    ((runChunks numChunks es st).2).length = es.length := by
  induction es generalizing st with
  | nil => rfl
  | cons e rest ih =>
    simp only [runChunks, List.length_cons]
    rw [ih]

theorem runChunks_chunksCompleted (numChunks : Nat) (es : List ChunkExec)
    (st : TransferState) :
    ((runChunks numChunks es st).1).chunksCompleted =
      st.chunksCompleted + es.length := by
  induction es generalizing st with
  | nil => rfl
  | cons e rest ih =>
    simp only [runChunks, List.length_cons]
    rw [ih, uploadChunk_chunksCompleted]
    omega

theorem runChunks_report (numChunks : Nat) (es : List ChunkExec)
    (st : TransferState) :
    ∀ i (hi : i < ((runChunks numChunks es st).2).length),
      ((((runChunks numChunks es st).2).get ⟨i, hi⟩).counterAfter =
          st.chunksCompleted + i + 1) ∧
      ((((runChunks numChunks es st).2).get ⟨i, hi⟩).finalized = true ↔
          st.chunksCompleted + i + 1 = numChunks) := by
  induction es generalizing st with
  | nil =>
    intro i hi
    simp [runChunks] at hi
  | cons e rest ih =>
    intro i hi
    cases i with
    | zero =>
      simp only [runChunks, List.get]
      exact ⟨uploadChunk_counterAfter numChunks e st,
             uploadChunk_finalized numChunks e st⟩
    | succ j =>
      simp only [runChunks, List.length_cons] at hi
      simp only [runChunks, List.get]
      have hj : j < ((runChunks numChunks rest (uploadChunk numChunks e st).1).2).length := by
        simpa using Nat.lt_of_succ_lt_succ hi
      have h := ih (uploadChunk numChunks e st).1 j hj
      rw [uploadChunk_chunksCompleted] at h
      constructor
      · rw [h.1]; omega
      · rw [h.2]; omega

/-- In a list of reports in which the report at position i is finalized
exactly when i + 1 equals the total count, exactly one report is
finalized. -/
theorem reports_filter_finalized (l : List ChunkReport) (n : Nat)
    (hn : 0 < n) (hlen : l.length = n)
    (h : ∀ i (hi : i < l.length), ((l.get ⟨i, hi⟩).finalized = true ↔ i + 1 = n)) :
    (l.filter (fun r => r.finalized)).length = 1 := by
  induction l generalizing n with
  | nil => simp at hlen; omega
  | cons r t ih =>
    cases t with
    | nil =>
      have hn1 : n = 1 := by simpa using hlen.symm
      have hr : r.finalized = true := by
        have := h 0 (by simp)
        simp [hn1] at this
        simpa [hn1] using this
      simp [List.filter, hr]
    | cons x t2 =>
      have hlen2 : (x :: t2).length = n - 1 := by
        simp only [List.length_cons] at hlen ⊢; omega
      have hn2 : 1 < n := by
        simp only [List.length_cons] at hlen; omega
      have hr : r.finalized = false := by
        have := h 0 (by simp)
        simp only [List.get] at this
        rcases Bool.eq_false_or_eq_true r.finalized with ht | hf
        · exact absurd (this.mp ht) (by omega)
        · exact hf
      have hrec := ih (n - 1) (by omega) hlen2 (by
        intro i hi
        have := h (i + 1) (by simp only [List.length_cons] at hi ⊢; omega)
        simp only [List.get] at this ⊢
        rw [this]
        omega)
      simpa [List.filter, hr] using hrec

theorem runChunks_append (numChunks : Nat) (es1 es2 : List ChunkExec)
    (st : TransferState) :
    runChunks numChunks (es1 ++ es2) st =
      ((runChunks numChunks es2 (runChunks numChunks es1 st).1).1,
       (runChunks numChunks es1 st).2 ++
         (runChunks numChunks es2 (runChunks numChunks es1 st).1).2) := by
  induction es1 generalizing st with
  | nil => simp [runChunks]
  | cons e rest ih =>
    simp only [List.cons_append, runChunks, List.append_eq]
    rw [ih]

theorem runChunks_cancelled_ok (numChunks : Nat) (es : List ChunkExec)
    (st : TransferState) (hc : st.cancelled = false)
    (hf : ∀ e ∈ es, e.stageOk = true ∧ e.cancelDuring = false) :
    ((runChunks numChunks es st).1).cancelled = false := by
  induction es generalizing st with
  | nil => simpa [runChunks] using hc
  | cons e rest ih =>
    simp only [runChunks]
    apply ih
    · rw [uploadChunk_cancelled, hc, (hf e (by simp)).1, (hf e (by simp)).2]
      rfl
    · intro x hx
      exact hf x (by simp [hx])

theorem runChunks_blockIds_ok (numChunks : Nat) (es : List ChunkExec)
    (st : TransferState) (hc : st.cancelled = false)
    (hf : ∀ e ∈ es, e.stageOk = true ∧ e.cancelDuring = false) :
    ((runChunks numChunks es st).1).blockIds =
      es.foldl (fun l x => l.set x.chunkId (some x.blockId)) st.blockIds := by
  induction es generalizing st with
  | nil => simp [runChunks]
  | cons e rest ih =>
    simp only [runChunks, List.foldl_cons]
    rw [ih _ (by
        rw [uploadChunk_cancelled, hc, (hf e (by simp)).1, (hf e (by simp)).2]
        rfl)
      (fun x hx => hf x (by simp [hx]))]
    rw [uploadChunk_blockIds]
    simp [hc]

theorem runChunks_status_prefix (numChunks : Nat) (es : List ChunkExec)
    (st : TransferState) (hc : st.cancelled = false)
    (hf : ∀ e ∈ es, e.stageOk = true ∧ e.cancelDuring = false)
    (hlt : st.chunksCompleted + es.length < numChunks) :
    ((runChunks numChunks es st).1).status = st.status := by
  induction es generalizing st with
  | nil => simp [runChunks]
  | cons e rest ih =>
    simp only [runChunks]
    rw [ih _ (by
        rw [uploadChunk_cancelled, hc, (hf e (by simp)).1, (hf e (by simp)).2]
        rfl)
      (fun x hx => hf x (by simp [hx]))
      (by
        rw [uploadChunk_chunksCompleted]
        simp only [List.length_cons] at hlt
        omega)]
    rw [uploadChunk_status]
    simp only [hc, (hf e (by simp)).1]
    have hne : ¬ st.chunksCompleted + 1 = numChunks := by
      simp only [List.length_cons] at hlt
      omega
    simp [hne]

theorem foldl_set_get_not_mem (t : List ChunkExec) (l : List (Option String))
    (j : Nat) (hj : j ∉ t.map ChunkExec.chunkId) :
    (t.foldl (fun l x => l.set x.chunkId (some x.blockId)) l)[j]? = l[j]? := by
  induction t generalizing l with
  | nil => rfl
  | cons x rest ih =>
    simp only [List.map_cons, List.mem_cons, not_or] at hj
    simp only [List.foldl_cons]
    rw [ih _ hj.2]
    exact List.getElem?_set_ne (fun h => hj.1 (by rw [h]))

theorem foldl_set_get_mem (es : List ChunkExec) (l : List (Option String))
    (hnd : (es.map ChunkExec.chunkId).Nodup)
    (hb : ∀ e ∈ es, e.chunkId < l.length) :
    ∀ e ∈ es,
      (es.foldl (fun l x => l.set x.chunkId (some x.blockId)) l)[e.chunkId]? =
        some (some e.blockId) := by
  induction es generalizing l with
  | nil => intro e he; simp at he
  | cons x rest ih =>
    intro e he
    simp only [List.map_cons, List.nodup_cons] at hnd
    rcases List.mem_cons.mp he with rfl | hrest
    · simp only [List.foldl_cons]
      rw [foldl_set_get_not_mem rest _ e.chunkId hnd.1]
      rw [List.getElem?_set_eq_of_lt _ (hb e (by simp))]
    · simp only [List.foldl_cons]
      exact ih _ hnd.2
        (fun y hy => by rw [List.length_set]; exact hb y (by simp [hy])) e hrest

theorem scheduleChunksFrom_pos (blobSize chunkSize startIndex blockIdCount : Nat)
    (h1 : startIndex < blobSize) (h2 : 0 < chunkSize) :
    scheduleChunksFrom blobSize chunkSize startIndex blockIdCount =
      { chunkId := blockIdCount
        adjustedChunkSize :=
          if blobSize < startIndex + chunkSize then blobSize - startIndex
          else chunkSize
        startIndex := startIndex } ::
        scheduleChunksFrom blobSize chunkSize (startIndex + chunkSize)
          (blockIdCount + 1) := by
  rw [scheduleChunksFrom]
  simp [h1, h2]

theorem scheduleChunksFrom_neg (blobSize chunkSize startIndex blockIdCount : Nat)
    (h : ¬ (startIndex < blobSize ∧ 0 < chunkSize)) :
    scheduleChunksFrom blobSize chunkSize startIndex blockIdCount = [] := by
  rw [scheduleChunksFrom]
  simp only [dif_neg h]

theorem ceilDiv_sub_add (b c : Nat) (hb : 0 < b) (hc : 0 < c) :
    ceilDiv (b - c) c + 1 = ceilDiv b c := by
  unfold ceilDiv
  rcases Nat.lt_or_ge b c with h | h
  · have e1 : b - c = 0 := by omega
    have e2 : b + c - 1 = (b - 1) + c := by omega
    rw [e1, e2, Nat.add_div_right _ hc,
      Nat.div_eq_of_lt (show 0 + c - 1 < c by omega),
      Nat.div_eq_of_lt (show b - 1 < c by omega)]
  · have e1 : b - c + c - 1 = b - 1 := by omega
    have e2 : b + c - 1 = (b - 1) + c := by omega
    rw [e1, e2, Nat.add_div_right _ hc]

theorem scheduleChunksFrom_length (blobSize chunkSize : Nat) (hc : 0 < chunkSize)
    (startIndex blockIdCount : Nat) :
    (scheduleChunksFrom blobSize chunkSize startIndex blockIdCount).length =
      ceilDiv (blobSize - startIndex) chunkSize := by
  by_cases h : startIndex < blobSize
  · rw [scheduleChunksFrom_pos _ _ _ _ h hc, List.length_cons,
      scheduleChunksFrom_length blobSize chunkSize hc (startIndex + chunkSize)
        (blockIdCount + 1)]
    have e1 : blobSize - (startIndex + chunkSize) = (blobSize - startIndex) - chunkSize := by
      omega
    rw [e1, ceilDiv_sub_add _ _ (by omega) hc]
  · rw [scheduleChunksFrom_neg _ _ _ _ (by omega), List.length_nil]
    have e1 : blobSize - startIndex = 0 := by omega
    rw [e1]
    unfold ceilDiv
    rw [Nat.div_eq_of_lt (by omega)]
termination_by blobSize - startIndex
decreasing_by omega

theorem scheduleChunksFrom_getElem (blobSize chunkSize : Nat) (hc : 0 < chunkSize)
    (startIndex blockIdCount i : Nat)
    (hi : i < (scheduleChunksFrom blobSize chunkSize startIndex blockIdCount).length) :
    (scheduleChunksFrom blobSize chunkSize startIndex blockIdCount)[i]? =
      some { chunkId := blockIdCount + i
             adjustedChunkSize :=
               min chunkSize (blobSize - (startIndex + i * chunkSize))
             startIndex := startIndex + i * chunkSize } := by
  by_cases h : startIndex < blobSize
  · rw [scheduleChunksFrom_pos _ _ _ _ h hc] at hi ⊢
    cases i with
    | zero =>
      simp only [List.getElem?_cons_zero, Option.some.injEq, ChunkJob.mk.injEq]
      refine ⟨by omega, ?_, by omega⟩
      split_ifs <;> omega
    | succ j =>
      rw [List.getElem?_cons_succ]
      have hj : j < (scheduleChunksFrom blobSize chunkSize (startIndex + chunkSize)
          (blockIdCount + 1)).length := by
        simpa using Nat.lt_of_succ_lt_succ hi
      rw [scheduleChunksFrom_getElem blobSize chunkSize hc (startIndex + chunkSize)
        (blockIdCount + 1) j hj]
      have hm : (j + 1) * chunkSize = j * chunkSize + chunkSize :=
        Nat.succ_mul j chunkSize
      simp only [Option.some.injEq, ChunkJob.mk.injEq]
      exact ⟨by omega, by omega, by omega⟩
  · rw [scheduleChunksFrom_neg _ _ _ _ (by omega)] at hi
    simp at hi
termination_by blobSize - startIndex
decreasing_by omega

theorem scheduleChunksFrom_lastShort (blobSize chunkSize : Nat) (hc : 0 < chunkSize)
    (startIndex blockIdCount i : Nat)
    (hi : i < (scheduleChunksFrom blobSize chunkSize startIndex blockIdCount).length) :
    ((scheduleChunksFrom blobSize chunkSize startIndex blockIdCount).map
        ChunkJob.adjustedChunkSize)[i]? =
      some (if i + 1 =
              (scheduleChunksFrom blobSize chunkSize startIndex blockIdCount).length
            then blobSize - (startIndex + i * chunkSize)
            else chunkSize) := by
  by_cases h : startIndex < blobSize
  · rw [scheduleChunksFrom_pos _ _ _ _ h hc] at hi ⊢
    cases i with
    | zero =>
      simp only [List.map_cons, List.getElem?_cons_zero, List.length_cons,
        Option.some.injEq]
      by_cases h2 : startIndex + chunkSize < blobSize
      · have hlen : 0 < (scheduleChunksFrom blobSize chunkSize
            (startIndex + chunkSize) (blockIdCount + 1)).length := by
          rw [scheduleChunksFrom_pos _ _ _ _ h2 hc]
          simp
        rw [if_neg (by omega), if_neg (by omega)]
      · have hlen : (scheduleChunksFrom blobSize chunkSize
            (startIndex + chunkSize) (blockIdCount + 1)).length = 0 := by
          rw [scheduleChunksFrom_neg _ _ _ _ (by omega)]
          rfl
        simp only [hlen, if_true]
        split_ifs <;> omega
    | succ j =>
      simp only [List.map_cons, List.getElem?_cons_succ, List.length_cons]
      have hj : j < (scheduleChunksFrom blobSize chunkSize (startIndex + chunkSize)
          (blockIdCount + 1)).length := by
        simpa using Nat.lt_of_succ_lt_succ hi
      rw [scheduleChunksFrom_lastShort blobSize chunkSize hc (startIndex + chunkSize)
        (blockIdCount + 1) j hj]
      have hm : (j + 1) * chunkSize = j * chunkSize + chunkSize :=
        Nat.succ_mul j chunkSize
      by_cases h4 : j + 1 = (scheduleChunksFrom blobSize chunkSize
          (startIndex + chunkSize) (blockIdCount + 1)).length
      · rw [if_pos h4, if_pos (by omega)]
        simp only [Option.some.injEq]
        omega
      · rw [if_neg h4, if_neg (by omega)]
  · rw [scheduleChunksFrom_neg _ _ _ _ (by omega)] at hi
    simp at hi
termination_by blobSize - startIndex
decreasing_by omega

theorem scheduleChunksFrom_tiles (blobSize chunkSize : Nat) (hc : 0 < chunkSize)
    (startIndex blockIdCount : Nat) (hs : startIndex ≤ blobSize) :
    Tiles startIndex blobSize
      ((scheduleChunksFrom blobSize chunkSize startIndex blockIdCount).map
        (fun j => (j.startIndex, j.adjustedChunkSize))) := by
  by_cases h : startIndex < blobSize
  · rw [scheduleChunksFrom_pos _ _ _ _ h hc]
    by_cases h2 : blobSize < startIndex + chunkSize
    · rw [scheduleChunksFrom_neg _ _ _ _ (by omega)]
      simp only [List.map_cons, List.map_nil, if_pos h2]
      refine Tiles.cons _ _ _ _ (by omega) (by omega) ?_
      rw [(by omega : startIndex + (blobSize - startIndex) = blobSize)]
      exact Tiles.nil blobSize
    · simp only [List.map_cons, if_neg h2]
      refine Tiles.cons _ _ _ _ hc (by omega) ?_
      exact scheduleChunksFrom_tiles blobSize chunkSize hc (startIndex + chunkSize)
        (blockIdCount + 1) (by omega)
  · rw [scheduleChunksFrom_neg _ _ _ _ (by omega)]
    rw [(by omega : startIndex = blobSize)]
    exact Tiles.nil blobSize
termination_by blobSize - startIndex
decreasing_by omega

/-- C10: on the chunked upload path the job throughput counter is bumped by
exactly the chunk's byte length when and only when the chunk's staging I/O
succeeds; an execution that short-circuits because the transfer is already
cancelled, or whose staging fails, leaves the counter unchanged. -/
theorem chunk_throughput_spec (numChunks : Nat) (e : ChunkExec)
    (st : TransferState) :
    ((uploadChunk numChunks e st).1).throughput =
      st.throughput +
        (if st.cancelled = false ∧ e.stageOk = true then e.size else 0) :=
  uploadChunk_throughput numChunks e st

/-- C5: a chunk execution that begins with the cancellation signal already
set performs no staging I/O and commits nothing, still increments the
completed-chunk counter, leaves status, throughput and the block-id slice
unchanged, finalizes exactly when its increment reaches numChunks, and in
that case releases the mapped view and closes the source handle. -/
theorem cancelled_chunk_spec (numChunks : Nat) (e : ChunkExec)
    (st : TransferState) (hc : st.cancelled = true) :
    ((uploadChunk numChunks e st).2).staged = false ∧
    ((uploadChunk numChunks e st).2).committedList = none ∧
    ((uploadChunk numChunks e st).1).chunksCompleted = st.chunksCompleted + 1 ∧
    ((uploadChunk numChunks e st).1).status = st.status ∧
    ((uploadChunk numChunks e st).1).throughput = st.throughput ∧
    ((uploadChunk numChunks e st).1).blockIds = st.blockIds ∧
    (((uploadChunk numChunks e st).2).finalized = true ↔
        st.chunksCompleted + 1 = numChunks) ∧
    ((uploadChunk numChunks e st).1).unmapCount =
      st.unmapCount + (if st.chunksCompleted + 1 = numChunks then 1 else 0) ∧
    ((uploadChunk numChunks e st).1).closeCount =
      st.closeCount + (if st.chunksCompleted + 1 = numChunks then 1 else 0) := by
  refine ⟨?_, ?_, uploadChunk_chunksCompleted _ _ _, ?_, ?_, ?_,
    uploadChunk_finalized _ _ _, uploadChunk_unmapCount _ _ _,
    uploadChunk_closeCount _ _ _⟩
  · rw [uploadChunk_staged, hc]
    rfl
  · rw [uploadChunk_committedList]
    simp [hc]
  · rw [uploadChunk_status]
    simp [hc]
  · rw [uploadChunk_throughput]
    simp [hc]
  · rw [uploadChunk_blockIds]
    simp [hc]

theorem cancelled_chunk_spec_witness :
    stCancelled.cancelled = true ∧
    (((uploadChunk 1 chunkOkA stCancelled).2).staged = false ∧
     ((uploadChunk 1 chunkOkA stCancelled).2).committedList = none ∧
     ((uploadChunk 1 chunkOkA stCancelled).1).chunksCompleted =
       stCancelled.chunksCompleted + 1 ∧
     ((uploadChunk 1 chunkOkA stCancelled).1).status = stCancelled.status ∧
     ((uploadChunk 1 chunkOkA stCancelled).1).throughput =
       stCancelled.throughput ∧
     ((uploadChunk 1 chunkOkA stCancelled).1).blockIds = stCancelled.blockIds ∧
     (((uploadChunk 1 chunkOkA stCancelled).2).finalized = true ↔
       stCancelled.chunksCompleted + 1 = 1) ∧
     ((uploadChunk 1 chunkOkA stCancelled).1).unmapCount =
       stCancelled.unmapCount +
         (if stCancelled.chunksCompleted + 1 = 1 then 1 else 0) ∧
     ((uploadChunk 1 chunkOkA stCancelled).1).closeCount =
       stCancelled.closeCount +
         (if stCancelled.chunksCompleted + 1 = 1 then 1 else 0)) :=
  ⟨rfl, cancelled_chunk_spec 1 chunkOkA stCancelled rfl⟩

/-- C6: a chunk execution whose staging I/O fails still increments the
completed-chunk counter, adds nothing to throughput and finalizes exactly
when it is last; when the transfer context was already cancelled the status
is left unchanged, and otherwise the execution cancels the whole transfer
and marks its status failed. -/
theorem failed_stage_spec (numChunks : Nat) (e : ChunkExec)
    (st : TransferState) (hc : st.cancelled = false) (hs : e.stageOk = false) :
    (e.cancelDuring = true →
       ((uploadChunk numChunks e st).1).status = st.status ∧
       ((uploadChunk numChunks e st).1).cancelled = true) ∧
    (e.cancelDuring = false →
       ((uploadChunk numChunks e st).1).cancelled = true ∧
       ((uploadChunk numChunks e st).1).status = TransferStatus.failed) ∧
    ((uploadChunk numChunks e st).1).chunksCompleted = st.chunksCompleted + 1 ∧
    ((uploadChunk numChunks e st).1).throughput = st.throughput ∧
    ((uploadChunk numChunks e st).2).committedList = none ∧
    (((uploadChunk numChunks e st).2).finalized = true ↔
        st.chunksCompleted + 1 = numChunks) := by
  refine ⟨?_, ?_, uploadChunk_chunksCompleted _ _ _, ?_, ?_,
    uploadChunk_finalized _ _ _⟩
  · intro hd
    constructor
    · rw [uploadChunk_status]
      simp [hc, hs, hd]
    · rw [uploadChunk_cancelled]
      simp [hs]
  · intro hd
    constructor
    · rw [uploadChunk_cancelled]
      simp [hs]
    · rw [uploadChunk_status]
      simp [hc, hs, hd]
  · rw [uploadChunk_throughput]
    simp [hs]
  · rw [uploadChunk_committedList]
    simp [hs]

theorem failed_stage_spec_witness :
    (initState 1).cancelled = false ∧
    chunkFail.stageOk = false ∧
    (((uploadChunk 1 chunkFail (initState 1)).1).cancelled = true ∧
     ((uploadChunk 1 chunkFail (initState 1)).1).status =
       TransferStatus.failed) :=
  ⟨rfl, rfl, (failed_stage_spec 1 chunkFail (initState 1) rfl rfl).2.1 rfl⟩

/-- C7: the whole-object putBlob path marks the status complete on success,
leaves it unchanged on a failure under a cancelled context and marks it
failed on any other failure; in all outcomes the transfer is marked done,
exactly one whole-object upload happens, the source size is added to
throughput exactly when it is nonzero, and the mapped view and source handle
are released exactly when one was acquired, that is when the source size is
nonzero.  The completed-chunk counter and block-list machinery are never
touched. -/
theorem putBlob_spec (sourceSize : Nat) (putOk : Bool) (st : TransferState) :
    (putBlob sourceSize putOk st).status =
      (if putOk = true then TransferStatus.complete
       else if st.cancelled = true then st.status
       else TransferStatus.failed) ∧
    (putBlob sourceSize putOk st).transfersDone = st.transfersDone + 1 ∧
    (putBlob sourceSize putOk st).putBlobCount = st.putBlobCount + 1 ∧
    (putBlob sourceSize putOk st).throughput =
      st.throughput + (if sourceSize ≠ 0 then sourceSize else 0) ∧
    (putBlob sourceSize putOk st).unmapCount =
      st.unmapCount + (if sourceSize ≠ 0 then 1 else 0) ∧
    (putBlob sourceSize putOk st).closeCount =
      st.closeCount + (if sourceSize ≠ 0 then 1 else 0) ∧
    (putBlob sourceSize putOk st).chunksCompleted = st.chunksCompleted ∧
    (putBlob sourceSize putOk st).blockIds = st.blockIds ∧
    (putBlob sourceSize putOk st).commitCount = st.commitCount := by
  simp only [putBlob]
  split_ifs <;> simp_all

/-- C3: for a transfer with sourceSize = 0 or sourceSize ≤ chunkSize the
prologue performs exactly one whole-object upload and schedules no chunk
jobs; no block-identifier slot is allocated, no block-list commit occurs,
and the completed-chunk counter and block-id slice are untouched. -/
theorem prologue_small_object (sourceSize chunkSize numChunks : Nat)
    (putOk : Bool) (st : TransferState)
    (h : sourceSize = 0 ∨ sourceSize ≤ chunkSize) :
    (runPrologue sourceSize chunkSize numChunks putOk st).didPutBlob = true ∧
    (runPrologue sourceSize chunkSize numChunks putOk st).chunkMsgs = [] ∧
    (runPrologue sourceSize chunkSize numChunks putOk st).blockIdSlots = none ∧
    ((runPrologue sourceSize chunkSize numChunks putOk st).st).putBlobCount =
      st.putBlobCount + 1 ∧
    ((runPrologue sourceSize chunkSize numChunks putOk st).st).commitCount =
      st.commitCount ∧
    ((runPrologue sourceSize chunkSize numChunks putOk st).st).chunksCompleted =
      st.chunksCompleted ∧
    ((runPrologue sourceSize chunkSize numChunks putOk st).st).blockIds =
      st.blockIds := by
  simp only [runPrologue, if_pos h, putBlob]
  split_ifs <;> simp_all

theorem prologue_small_object_witness :
    ((5 : Nat) = 0 ∨ (5 : Nat) ≤ 10) ∧
    ((runPrologue 5 10 0 true (initState 0)).didPutBlob = true ∧
     (runPrologue 5 10 0 true (initState 0)).chunkMsgs = [] ∧
     (runPrologue 5 10 0 true (initState 0)).blockIdSlots = none ∧
     ((runPrologue 5 10 0 true (initState 0)).st).putBlobCount =
       (initState 0).putBlobCount + 1 ∧
     ((runPrologue 5 10 0 true (initState 0)).st).commitCount =
       (initState 0).commitCount ∧
     ((runPrologue 5 10 0 true (initState 0)).st).chunksCompleted =
       (initState 0).chunksCompleted ∧
     ((runPrologue 5 10 0 true (initState 0)).st).blockIds =
       (initState 0).blockIds) :=
  ⟨Or.inr (by decide),
    prologue_small_object 5 10 0 true (initState 0) (Or.inr (by decide))⟩

/-- C2: for sourceSize > chunkSize > 0 the prologue chunk jobs tile
[0, sourceSize) contiguously, in increasing chunk-index order, with no gaps
or overlaps; job i starts at i * chunkSize and has length chunkSize except
possibly the last job, whose length is sourceSize minus its start index;
the number of jobs is ceil(sourceSize / chunkSize); and sourceSize = 250
with chunkSize = 100 yields the ranges [0,100), [100,200), [200,250). -/
theorem prologue_chunk_ranges (sourceSize chunkSize : Nat)
    (h1 : 0 < chunkSize) (_h2 : chunkSize < sourceSize) :
    Tiles 0 sourceSize
      ((chunkJobs sourceSize chunkSize).map
        (fun j => (j.startIndex, j.adjustedChunkSize))) ∧
    (chunkJobs sourceSize chunkSize).length = ceilDiv sourceSize chunkSize ∧
    (∀ i, i < (chunkJobs sourceSize chunkSize).length →
       (chunkJobs sourceSize chunkSize)[i]? =
         some { chunkId := i
                adjustedChunkSize :=
                  if i + 1 = (chunkJobs sourceSize chunkSize).length
                  then sourceSize - i * chunkSize
                  else chunkSize
                startIndex := i * chunkSize }) ∧
    chunkJobs 250 100 = [⟨0, 100, 0⟩, ⟨1, 100, 100⟩, ⟨2, 50, 200⟩] := by
  refine ⟨?_, ?_, ?_, ?_⟩
  · exact scheduleChunksFrom_tiles sourceSize chunkSize h1 0 0 (by omega)
  · unfold chunkJobs
    rw [scheduleChunksFrom_length sourceSize chunkSize h1 0 0, Nat.sub_zero]
  · intro i hi
    unfold chunkJobs at hi ⊢
    have hg := scheduleChunksFrom_getElem sourceSize chunkSize h1 0 0 i hi
    have hl := scheduleChunksFrom_lastShort sourceSize chunkSize h1 0 0 i hi
    rw [List.getElem?_map, hg] at hl
    rw [hg]
    simp only [Option.map_some', Option.some.injEq] at hl
    simp only [Option.some.injEq, ChunkJob.mk.injEq]
    refine ⟨by omega, ?_, by omega⟩
    simpa using hl
  · unfold chunkJobs
    rw [scheduleChunksFrom_pos 250 100 0 0 (by omega) (by omega),
      scheduleChunksFrom_pos 250 100 100 1 (by omega) (by omega),
      scheduleChunksFrom_pos 250 100 200 2 (by omega) (by omega),
      scheduleChunksFrom_neg 250 100 300 3 (by omega)]
    decide

theorem prologue_chunk_ranges_witness :
    ((0 : Nat) < 100 ∧ (100 : Nat) < 250) ∧
    (Tiles 0 250
      ((chunkJobs 250 100).map (fun j => (j.startIndex, j.adjustedChunkSize))) ∧
     (chunkJobs 250 100).length = ceilDiv 250 100 ∧
     (∀ i, i < (chunkJobs 250 100).length →
        (chunkJobs 250 100)[i]? =
          some { chunkId := i
                 adjustedChunkSize :=
                   if i + 1 = (chunkJobs 250 100).length
                   then 250 - i * 100
                   else 100
                 startIndex := i * 100 }) ∧
     chunkJobs 250 100 = [⟨0, 100, 0⟩, ⟨1, 100, 100⟩, ⟨2, 50, 200⟩]) :=
  ⟨⟨by decide, by decide⟩, prologue_chunk_ranges 250 100 (by decide) (by decide)⟩

/-- C8: on the chunked path the prologue allocates one block-identifier slot
per chunk index, numChunks = ceil(sourceSize / chunkSize) of them, exactly
as many chunk jobs are emitted, and every scheduled chunk job's index is
strictly below the slot count, so each block-id write lands inside the
allocated slice. -/
theorem prologue_blockIds_bounds (sourceSize chunkSize : Nat) (putOk : Bool)
    (st : TransferState) (h1 : 0 < chunkSize) (h2 : chunkSize < sourceSize) :
    (runPrologue sourceSize chunkSize (numChunksOf sourceSize chunkSize) putOk
        st).blockIdSlots = some (numChunksOf sourceSize chunkSize) ∧
    ((runPrologue sourceSize chunkSize (numChunksOf sourceSize chunkSize) putOk
        st).st).blockIds.length = numChunksOf sourceSize chunkSize ∧
    (runPrologue sourceSize chunkSize (numChunksOf sourceSize chunkSize) putOk
        st).chunkMsgs.length = numChunksOf sourceSize chunkSize ∧
    ∀ j ∈ (runPrologue sourceSize chunkSize (numChunksOf sourceSize chunkSize)
        putOk st).chunkMsgs,
      j.chunkId < numChunksOf sourceSize chunkSize := by
  have hns : ¬ (sourceSize = 0 ∨ sourceSize ≤ chunkSize) := by omega
  have hlen : (chunkJobs sourceSize chunkSize).length =
      numChunksOf sourceSize chunkSize := by
    unfold chunkJobs numChunksOf
    rw [scheduleChunksFrom_length sourceSize chunkSize h1 0 0, Nat.sub_zero]
  unfold runPrologue
  rw [if_neg hns]
  refine ⟨rfl, by simp, hlen, ?_⟩
  intro j hj
  simp only at hj
  unfold chunkJobs at hj hlen
  rcases List.mem_iff_getElem?.mp hj with ⟨i, hget⟩
  have hi : i < (scheduleChunksFrom sourceSize chunkSize 0 0).length := by
    by_contra hni
    rw [List.getElem?_eq_none (by omega)] at hget
    exact Option.noConfusion hget
  rw [scheduleChunksFrom_getElem sourceSize chunkSize h1 0 0 i hi] at hget
  have hj2 := Option.some.inj hget
  have hcid : j.chunkId = 0 + i := by rw [← hj2]
  omega

theorem prologue_blockIds_bounds_witness :
    ((0 : Nat) < 100 ∧ (100 : Nat) < 250) ∧
    ((runPrologue 250 100 (numChunksOf 250 100) true (initState 0)).blockIdSlots
       = some (numChunksOf 250 100) ∧
     ((runPrologue 250 100 (numChunksOf 250 100) true (initState 0)).st).blockIds.length
       = numChunksOf 250 100 ∧
     (runPrologue 250 100 (numChunksOf 250 100) true (initState 0)).chunkMsgs.length
       = numChunksOf 250 100 ∧
     ∀ j ∈ (runPrologue 250 100 (numChunksOf 250 100) true (initState 0)).chunkMsgs,
       j.chunkId < numChunksOf 250 100) :=
  ⟨⟨by decide, by decide⟩,
    prologue_blockIds_bounds 250 100 true (initState 0) (by decide) (by decide)⟩

/-- C1: over a full run of numChunks chunk executions of one transfer,
starting from a fresh completion counter, each execution increments the
completed-chunk counter exactly once (the i-th completion observes the value
i + 1), an execution finalizes exactly when its increment produces
numChunks, and exactly one execution of the run finalizes, regardless of
the completion order and of the individual chunk outcomes. -/
theorem chunked_epilogue_exactly_once (numChunks : Nat) (es : List ChunkExec)
    (st0 : TransferState) (hN : 0 < numChunks) (hlen : es.length = numChunks)
    (h0 : st0.chunksCompleted = 0) :
    ((runChunks numChunks es st0).1).chunksCompleted = numChunks ∧
    (∀ i (hi : i < ((runChunks numChunks es st0).2).length),
       (((runChunks numChunks es st0).2).get ⟨i, hi⟩).counterAfter = i + 1) ∧
    (∀ i (hi : i < ((runChunks numChunks es st0).2).length),
       ((((runChunks numChunks es st0).2).get ⟨i, hi⟩).finalized = true ↔
         i + 1 = numChunks)) ∧
    (((runChunks numChunks es st0).2).filter (fun r => r.finalized)).length
      = 1 := by
  refine ⟨?_, ?_, ?_, ?_⟩
  · rw [runChunks_chunksCompleted, h0, hlen, Nat.zero_add]
  · intro i hi
    have h := (runChunks_report numChunks es st0 i hi).1
    rw [h0] at h
    simpa using h
  · intro i hi
    have h := (runChunks_report numChunks es st0 i hi).2
    rw [h0] at h
    simpa using h
  · refine reports_filter_finalized _ numChunks hN ?_ ?_
    · rw [runChunks_length, hlen]
    · intro i hi
      have h := (runChunks_report numChunks es st0 i hi).2
      rw [h0] at h
      simpa using h

theorem chunked_epilogue_exactly_once_witness :
    (0 : Nat) < 2 ∧
    (((runChunks 2 [chunkOkA, chunkOkB] (initState 2)).1).chunksCompleted = 2 ∧
     (∀ i (hi : i < ((runChunks 2 [chunkOkA, chunkOkB] (initState 2)).2).length),
        (((runChunks 2 [chunkOkA, chunkOkB] (initState 2)).2).get
          ⟨i, hi⟩).counterAfter = i + 1) ∧
     (∀ i (hi : i < ((runChunks 2 [chunkOkA, chunkOkB] (initState 2)).2).length),
        ((((runChunks 2 [chunkOkA, chunkOkB] (initState 2)).2).get
          ⟨i, hi⟩).finalized = true ↔ i + 1 = 2)) ∧
     (((runChunks 2 [chunkOkA, chunkOkB] (initState 2)).2).filter
        (fun r => r.finalized)).length = 1) :=
  ⟨by decide,
    chunked_epilogue_exactly_once 2 [chunkOkA, chunkOkB] (initState 2)
      (by decide) rfl rfl⟩

/-- C4: when the finalizing chunk execution reaches the epilogue: if the
cancellation signal is set at the epilogue check, the commit is skipped and
the transfer finalizes with its status unchanged; otherwise it commits the
block-identifier slice, and a commit failure sets the status failed while a
commit success sets it complete.  Over a full run in any completion order
whose chunk indices cover the slots, the committed slice holds at index i
the identifier generated for chunk i, the run's last report is the
finalizing one and carries exactly that slice, and the final status follows
the commit outcome of the finalizing execution. -/
theorem epilogue_commit_spec :
    (∀ (numChunks : Nat) (e : ChunkExec) (st : TransferState),
       st.cancelled = false → e.stageOk = true →
       st.chunksCompleted + 1 = numChunks →
       (e.cancelDuring = true →
          ((uploadChunk numChunks e st).2).finalized = true ∧
          ((uploadChunk numChunks e st).2).committedList = none ∧
          ((uploadChunk numChunks e st).1).status = st.status) ∧
       (e.cancelDuring = false →
          ((uploadChunk numChunks e st).2).finalized = true ∧
          ((uploadChunk numChunks e st).2).committedList =
            some (st.blockIds.set e.chunkId (some e.blockId)) ∧
          ((uploadChunk numChunks e st).1).status =
            (if e.commitOk = true then TransferStatus.complete
             else TransferStatus.failed))) ∧
    (∀ (numChunks : Nat) (es0 : List ChunkExec) (eL : ChunkExec)
       (st0 : TransferState),
       st0.cancelled = false → st0.chunksCompleted = 0 →
       st0.blockIds.length = numChunks →
       (es0 ++ [eL]).length = numChunks →
       ((es0 ++ [eL]).map ChunkExec.chunkId).Perm (List.range numChunks) →
       (∀ e ∈ es0 ++ [eL], e.stageOk = true ∧ e.cancelDuring = false) →
       ((∀ e ∈ es0 ++ [eL],
           ((runChunks numChunks (es0 ++ [eL]) st0).1).blockIds[e.chunkId]? =
             some (some e.blockId)) ∧
        (∃ r, ((runChunks numChunks (es0 ++ [eL]) st0).2).getLast? = some r ∧
           r.finalized = true ∧
           r.committedList =
             some (((runChunks numChunks (es0 ++ [eL]) st0).1).blockIds)) ∧
        ((runChunks numChunks (es0 ++ [eL]) st0).1).status =
          (if eL.commitOk = true then TransferStatus.complete
           else TransferStatus.failed))) := by
  constructor
  · intro numChunks e st hc hs hn
    constructor
    · intro hd
      refine ⟨(uploadChunk_finalized _ _ _).mpr hn, ?_, ?_⟩
      · rw [uploadChunk_committedList]
        simp [hd]
      · rw [uploadChunk_status]
        simp [hc, hs, hn, hd]
    · intro hd
      refine ⟨(uploadChunk_finalized _ _ _).mpr hn, ?_, ?_⟩
      · rw [uploadChunk_committedList]
        simp [hc, hs, hn, hd]
      · rw [uploadChunk_status]
        simp [hc, hs, hn, hd]
  · intro numChunks es0 eL st0 hc h0 hblen hlen hperm hf
    have hfL : eL.stageOk = true ∧ eL.cancelDuring = false := hf eL (by simp)
    have hf0 : ∀ e ∈ es0, e.stageOk = true ∧ e.cancelDuring = false := by
      intro e he
      exact hf e (by simp [he])
    have happ := runChunks_append numChunks es0 [eL] st0
    have hcPre : ((runChunks numChunks es0 st0).1).cancelled = false :=
      runChunks_cancelled_ok _ _ _ hc hf0
    have hccPre : ((runChunks numChunks es0 st0).1).chunksCompleted + 1 =
        numChunks := by
      rw [runChunks_chunksCompleted, h0]
      simp only [List.length_append, List.length_cons, List.length_nil] at hlen
      omega
    have hfin : (runChunks numChunks (es0 ++ [eL]) st0).1 =
        (uploadChunk numChunks eL (runChunks numChunks es0 st0).1).1 := by
      rw [happ]
      simp [runChunks]
    have hreps : (runChunks numChunks (es0 ++ [eL]) st0).2 =
        (runChunks numChunks es0 st0).2 ++
          [(uploadChunk numChunks eL (runChunks numChunks es0 st0).1).2] := by
      rw [happ]
      simp [runChunks]
    have hbfold : ((runChunks numChunks (es0 ++ [eL]) st0).1).blockIds =
        (es0 ++ [eL]).foldl (fun l x => l.set x.chunkId (some x.blockId))
          st0.blockIds :=
      runChunks_blockIds_ok _ _ _ hc hf
    have hnd : ((es0 ++ [eL]).map ChunkExec.chunkId).Nodup :=
      hperm.nodup_iff.mpr (List.nodup_range numChunks)
    have hb : ∀ e ∈ es0 ++ [eL], e.chunkId < st0.blockIds.length := by
      intro e he
      rw [hblen]
      exact List.mem_range.mp
        (hperm.mem_iff.mp (List.mem_map_of_mem ChunkExec.chunkId he))
    refine ⟨?_, ?_, ?_⟩
    · intro e he
      rw [hbfold]
      exact foldl_set_get_mem _ _ hnd hb e he
    · refine ⟨(uploadChunk numChunks eL (runChunks numChunks es0 st0).1).2,
        ?_, (uploadChunk_finalized _ _ _).mpr hccPre, ?_⟩
      · rw [hreps, List.getLast?_concat]
      · rw [uploadChunk_committedList,
          if_pos ⟨hcPre, hfL.1, hccPre, hfL.2⟩, hfin, uploadChunk_blockIds]
        simp [hcPre]
    · rw [hfin, uploadChunk_status]
      simp [hcPre, hfL.1, hfL.2, hccPre]

theorem epilogue_commit_spec_witness :
    ((chunkOkA.cancelDuring = true →
        ((uploadChunk 1 chunkOkA (initState 1)).2).finalized = true ∧
        ((uploadChunk 1 chunkOkA (initState 1)).2).committedList = none ∧
        ((uploadChunk 1 chunkOkA (initState 1)).1).status =
          (initState 1).status) ∧
     (chunkOkA.cancelDuring = false →
        ((uploadChunk 1 chunkOkA (initState 1)).2).finalized = true ∧
        ((uploadChunk 1 chunkOkA (initState 1)).2).committedList =
          some ((initState 1).blockIds.set chunkOkA.chunkId
            (some chunkOkA.blockId)) ∧
        ((uploadChunk 1 chunkOkA (initState 1)).1).status =
          (if chunkOkA.commitOk = true then TransferStatus.complete
           else TransferStatus.failed))) ∧
    ((∀ e ∈ [chunkOkA] ++ [chunkOkB],
        ((runChunks 2 ([chunkOkA] ++ [chunkOkB]) (initState 2)).1).blockIds[e.chunkId]? =
          some (some e.blockId)) ∧
     (∃ r, ((runChunks 2 ([chunkOkA] ++ [chunkOkB]) (initState 2)).2).getLast?
          = some r ∧
        r.finalized = true ∧
        r.committedList =
          some (((runChunks 2 ([chunkOkA] ++ [chunkOkB]) (initState 2)).1).blockIds)) ∧
     ((runChunks 2 ([chunkOkA] ++ [chunkOkB]) (initState 2)).1).status =
       (if chunkOkB.commitOk = true then TransferStatus.complete
        else TransferStatus.failed)) :=
  ⟨epilogue_commit_spec.1 1 chunkOkA (initState 1) rfl rfl rfl,
   epilogue_commit_spec.2 2 [chunkOkA] chunkOkB (initState 2) rfl rfl
     (by decide) rfl (by decide) (by decide)⟩

/-- C9 counterexample: a list-command invocation whose job-identifier
argument fails to parse is not rejected before dispatch: the `Args`
validator only prints a message and returns nil, the job-id field stays
empty, and `HandleListCommand` performs the listJobs RPC. -/
theorem list_badJobId_dispatches :
    ParseJobID ("not-a-job-id") = none ∧
    runListCommand ["not-a-job-id"] "" = some RpcCall.listJobs := by
  constructor
  · decide
  · decide

/-- C9 amended: a non-empty status filter that does not map to a recognized
transfer status is rejected before dispatch, with no RPC made, whatever the
arguments; but a job-identifier argument that fails to parse is not
rejected: the job-id field is left empty and the command still dispatches,
performing the listJobs RPC when no status filter is given. -/
theorem list_command_validation (withStatus a : String) (args : List String) :
    (withStatus ≠ "" → TransferStatusStringToCode withStatus = 4294967295 →
       runListCommand args withStatus = none) ∧
    (ParseJobID a = none → withStatus = "" →
       runListCommand (a :: args) withStatus = some RpcCall.listJobs) := by
  constructor
  · intro hne hcode
    have hOf : (lsCmdArgs args
        { JobId := EmptyJobId, OfStatus := withStatus }).OfStatus = withStatus := by
      cases args with
      | nil => rfl
      | cons x xs =>
        unfold lsCmdArgs
        cases hpx : ParseJobID x <;> simp [hpx]
    unfold runListCommand HandleListCommand
    simp only [hOf]
    simp [hne, hcode]
  · intro hpa hws
    subst hws
    unfold runListCommand lsCmdArgs
    simp only [hpa]
    simp [HandleListCommand, EmptyJobId]

theorem list_command_validation_witness :
    (("BogusStatus" : String) ≠ "" ∧
     TransferStatusStringToCode ("BogusStatus") = 4294967295 ∧
     runListCommand [] ("BogusStatus") = none) ∧
    (ParseJobID ("not-a-uuid") = none ∧
     runListCommand (("not-a-uuid") :: []) "" = some RpcCall.listJobs) :=
  ⟨⟨by decide, by decide,
     (list_command_validation ("BogusStatus") ("x") []).1 (by decide) (by decide)⟩,
   ⟨by decide,
     (list_command_validation "" ("not-a-uuid") []).2 (by decide) rfl⟩⟩

end AzCopy
